import Mathlib

/-!
Shallow embedding of the order-file to invoice-file converter (`app3.py`):
header normalisation, fuzzy column resolution, platform detection, the
per-row deduplicating merge, the platform-specific field builders and the
invoice row builder, together with theorems about them.
-/

namespace App3

/-- Characters treated as whitespace by the normaliser and the splitters
(the regex class for whitespace in the source). -/
def isSpaceChar (c : Char) : Bool :=
  c = ' ' || c = '\t' || c = '\n' || c = '\r' || c = '\x0b' || c = '\x0c'

/-- The punctuation characters stripped by `norm` (`[()\-_/.,·:]`). -/
def isPunctChar (c : Char) : Bool :=
  c = '(' || c = ')' || c = '-' || c = '_' || c = '/' || c = '.' || c = ',' || c = '·' || c = ':'

/-- ASCII lower-casing of a single character, as `str.lower` acts on the
basic latin range. -/
def lowerChar (c : Char) : Char :=
  if 65 ≤ c.toNat ∧ c.toNat ≤ 90 then Char.ofNat (c.toNat + 32) else c

/-- A character survives `norm`'s two substitution passes iff it is neither
whitespace nor stripped punctuation. -/
def keepChar (c : Char) : Bool :=
  !isSpaceChar c && !isPunctChar c

/-- `norm` from the source: strip, lower-case, delete all whitespace, delete
the fixed punctuation set.  (The initial strip is subsumed by whitespace
deletion.) -/
def norm (s : String) : String :=
  ⟨(s.data.map lowerChar).filter keepChar⟩

/-- Strip leading and trailing whitespace from a character list
(`str.strip`). -/
def trimL (l : List Char) : List Char :=
  ((l.dropWhile isSpaceChar).reverse.dropWhile isSpaceChar).reverse

/-- Strip leading and trailing whitespace from a string. -/
def trimS (s : String) : String :=
  ⟨trimL s.data⟩

/-- Does `a` occur as a leading segment of `b`? -/
def startsWithL : List Char → List Char → Bool
  | [], _ => true
  | _ :: _, [] => false
  | a :: as, b :: bs => a == b && startsWithL as bs

/-- Contiguous-substring test on character lists, as the membership operator
behaves on source strings (the empty string is a substring of anything). -/
def isSubL (a : List Char) : List Char → Bool
  | [] => a.isEmpty
  | b :: bs => startsWithL a (b :: bs) || isSubL a bs

/-- `x in y` on strings: `x` occurs contiguously inside `y`. -/
def isSub (a b : String) : Bool :=
  isSubL a.data b.data

/-- One spreadsheet cell: a textual value, a missing value (whose string
form is the float-nan marker `"nan"`), or a Python `None` (string form
`"None"`). -/
inductive Cell where
  | str (v : String)
  | nan
  | pyNone
deriving DecidableEq, Repr

/-- The string form a cell takes under text coercion of a column. -/
def cellStr : Cell → String
  | .str v => v
  | .nan => "nan"
  | .pyNone => "None"

/-- One cell of `clean_series`: coerce to text, blank a cell whose entire
text is `"nan"` or `"None"`, then strip surrounding whitespace. -/
def clean_cell (c : Cell) : String :=
  trimS (if cellStr c = "nan" ∨ cellStr c = "None" then "" else cellStr c)

/-- `clean_series` from the source, applied to a column of cells. -/
def clean_series (col : List Cell) : List String :=
  col.map clean_cell

/-- A data table: a stored row count and an ordered list of named columns.
Well-formedness (every column has `nrows` cells) is `Table.wf`. -/
structure Table where
  nrows : Nat
  cols : List (String × List Cell)
deriving DecidableEq, Repr

/-- The header names of a table, in column order. -/
def Table.headers (df : Table) : List String :=
  df.cols.map Prod.fst

/-- Does the table have a column of this exact name? -/
def Table.hasCol (df : Table) (name : String) : Bool :=
  df.cols.any (fun p => p.1 == name)

/-- The cells of the named column (first occurrence), `[]` if absent. -/
def Table.getColD (df : Table) (name : String) : List Cell :=
  ((df.cols.find? (fun p => p.1 == name)).map Prod.snd).getD []

/-- Number of columns. -/
def Table.ncols (df : Table) : Nat :=
  df.cols.length

/-- The cells of the column at a positional index, `[]` if out of range. -/
def Table.ilocCol (df : Table) (i : Nat) : List Cell :=
  ((df.cols.get? i).map Prod.snd).getD []

/-- Replace the cells of every column carrying this name. -/
def Table.setCol (df : Table) (name : String) (vals : List Cell) : Table :=
  ⟨df.nrows, df.cols.map (fun p => if p.1 = name then (p.1, vals) else p)⟩

/-- Every column of the table has exactly `nrows` cells. -/
def Table.wf (df : Table) : Prop :=
  ∀ p ∈ df.cols, p.2.length = df.nrows

instance (df : Table) : Decidable df.wf := by
  unfold Table.wf
  infer_instance

/-- Insert a key/value pair as a dict assignment does: overwrite in place if
the key exists (keeping its position), else append at the end. -/
def dictInsert (acc : List (String × String)) (k v : String) : List (String × String) :=
  if acc.any (fun p => p.1 == k) then
    acc.map (fun p => if p.1 = k then (k, v) else p)
  else
    acc ++ [(k, v)]

/-- The `norm_cols` dict of `find_col`: normalised header → original header,
with last-write-wins on clashes and first-insertion iteration order. -/
def normCols (cols : List String) : List (String × String) :=
  cols.foldl (fun acc c => dictInsert acc (norm c) c) []

/-- Dict lookup on the association list. -/
def lookupA (l : List (String × String)) (k : String) : Option String :=
  (l.find? (fun p => p.1 == k)).map Prod.snd

/-- First non-`none` result of `f` along the list, as an early-returning
`for` loop produces. -/
def firstSome {α β : Type} : List α → (α → Option β) → Option β
  | [], _ => none
  | a :: as, f =>
    match f a with
    | some b => some b
    | none => firstSome as f

/-- `find_col` from the source: an exact pass over the candidates against
the normalised-header dict, then a bidirectional-substring pass over the
dict entries. -/
def find_col (df : Table) (candidates : List String) : Option String :=
  match firstSome candidates (fun cand => lookupA (normCols df.headers) (norm cand)) with
  | some c => some c
  | none =>
    firstSome (normCols df.headers) (fun p =>
      if candidates.any (fun cand =>
          norm cand ≠ "" && (isSub (norm cand) p.1 || isSub p.1 (norm cand))) then
        some p.2
      else
        none)

/-- Split a character stream into maximal whitespace-free words, as
`str.split()` with no separator does (no empty words are produced). -/
def splitWsGo : List Char → List Char → List String
  | acc, [] => if acc.isEmpty then [] else [⟨acc.reverse⟩]
  | acc, c :: cs =>
    if isSpaceChar c then
      if acc.isEmpty then splitWsGo [] cs else ⟨acc.reverse⟩ :: splitWsGo [] cs
    else
      splitWsGo (c :: acc) cs

/-- Whitespace tokenisation of a string. -/
def splitWs (s : String) : List String :=
  splitWsGo [] s.data

/-- Keep the first occurrence of each word, dropping repeats, as the
seen-set loop of `merge_one` does. -/
def dedupTokens (ts : List String) : List String :=
  ts.foldl (fun acc t => if t ∈ acc then acc else acc ++ [t]) []

/-- Rejoin words with single spaces (`" ".join`). -/
def joinSpace : List String → String
  | [] => ""
  | [t] => t
  | t :: ts => t ++ " " ++ joinSpace ts

/-- `merge_one` from `dedupe_merge_text`: strip both sides; empty sides
collapse to the other; equal or substring-related values collapse to the
larger; otherwise join the token streams dropping repeated words. -/
def merge_one (x0 y0 : String) : String :=
  if trimS x0 = "" ∧ trimS y0 = "" then ""
  else if trimS x0 = "" then trimS y0
  else if trimS y0 = "" then trimS x0
  else if trimS x0 = trimS y0 then trimS x0
  else if isSub (trimS x0) (trimS y0) then trimS y0
  else if isSub (trimS y0) (trimS x0) then trimS x0
  else joinSpace (dedupTokens (splitWs (trimS x0 ++ " " ++ trimS y0)))

/-- `dedupe_merge_text` from the source: clean both columns, then merge the
rows pairwise. -/
def dedupe_merge_text (a b : List Cell) : List String :=
  List.zipWith merge_one (clean_series a) (clean_series b)

/-- The platform signature keyword lists (`PLATFORM_SIGNATURES`). -/
def SIG_coupang : List String :=
  ["노출상품명", "노출상품명(옵션명)", "등록상품명", "수취인이름", "주문번호", "결제액", "구매수"]

/-- Smartstore signature keywords. -/
def SIG_smartstore : List String :=
  ["상품주문번호", "수취인명", "배송메시지", "배송메세지", "옵션정보", "우편번호"]

/-- Thirtymall signature keywords. -/
def SIG_thirtymall : List String :=
  ["쇼핑몰구분", "주문구분", "주문메모", "업무메시지",
   "상품명", "옵션명:옵션값", "수령자명", "수령자연락처", "우편번호", "주소"]

/-- The set of normalised headers the scorer works over. -/
def colsNorm (df : Table) : List String :=
  df.headers.map norm

/-- The `score` closure of `detect_platform`: +2 for a normalised exact hit,
else +1 for a bidirectional substring hit by a non-empty key. -/
def sigScore (cn : List String) (keys : List String) : Nat :=
  keys.foldl (fun s k =>
    if norm k ∈ cn then s + 2
    else if norm k ≠ "" ∧ cn.any (fun c => isSub (norm k) c || isSub c (norm k)) then s + 1
    else s) 0

/-- ASCII lower-casing of a whole string (`str.lower`). -/
def lowerS (s : String) : String :=
  ⟨s.data.map lowerChar⟩

/-- The thirtymall value hint: some cell of the resolved mall column
mentions the platform by name. -/
def mallHint (df : Table) : Bool :=
  match find_col df ["쇼핑몰구분", "쇼핑몰", "mall", "shop"] with
  | none => false
  | some c =>
    (clean_series (df.getColD c)).any (fun v =>
      isSub "떠리몰" (lowerS v) || isSub "thirtymall" (lowerS v))

/-- Coupang header score. -/
def coupangScore (df : Table) : Nat :=
  sigScore (colsNorm df) SIG_coupang

/-- Smartstore header score. -/
def smartScore (df : Table) : Nat :=
  sigScore (colsNorm df) SIG_smartstore

/-- Thirtymall header score plus the +3 value-hint bonus. -/
def thirtyScore (df : Table) : Nat :=
  sigScore (colsNorm df) SIG_thirtymall + (if mallHint df then 3 else 0)

/-- The decision tail of `detect_platform` over the three final scores:
all-zero means unknown, otherwise the first declared platform holding the
maximum wins (the behaviour of a running-maximum scan in declaration
order). -/
def pick3 (c s t : Nat) : String :=
  if c = 0 ∧ s = 0 ∧ t = 0 then "unknown"
  else if c ≥ s ∧ c ≥ t then "coupang"
  else if s ≥ t then "smartstore"
  else "thirtymall"

/-- `detect_platform` from the source. -/
def detect_platform (df : Table) : String :=
  if coupangScore df = 0 ∧ smartScore df = 0 ∧ thirtyScore df = 0 then "unknown"
  else if coupangScore df ≥ smartScore df ∧ coupangScore df ≥ thirtyScore df then "coupang"
  else if smartScore df ≥ thirtyScore df then "smartstore"
  else "thirtymall"

/-- The platform declaration order of `PLATFORM_SIGNATURES`. -/
def PLATFORMS : List String :=
  ["coupang", "smartstore", "thirtymall"]

/-- Score lookup over three platform scores, by platform name. -/
def score3 (c s t : Nat) : String → Nat
  | "coupang" => c
  | "smartstore" => s
  | "thirtymall" => t
  | _ => 0

/-- The final (bonus-inclusive) score of a named platform. -/
def platformScore (df : Table) : String → Nat :=
  score3 (coupangScore df) (smartScore df) (thirtyScore df)

/-- Position of a platform in the declaration order. -/
def declIdx (p : String) : Nat :=
  if p = "coupang" then 0
  else if p = "smartstore" then 1
  else if p = "thirtymall" then 2
  else 3

/-- Replace each maximal whitespace run by a single space, tracking whether
the previous character was part of a run. -/
def collapseWsGo : Bool → List Char → List Char
  | _, [] => []
  | prev, c :: cs =>
    if isSpaceChar c then
      if prev then collapseWsGo true cs else ' ' :: collapseWsGo true cs
    else
      c :: collapseWsGo false cs

/-- The whitespace-run collapse used after joining two text fields. -/
def collapseWs (s : String) : String :=
  ⟨collapseWsGo false s.data⟩

/-- Join two cleaned per-row values with a space, collapse whitespace runs,
and strip — the item-name and address composition step. -/
def joinCollapse (a b : String) : String :=
  trimS (collapseWs (a ++ " " ++ b))

/-- Cleaned cells of a resolved column; the column at the fixed positional
index when resolution failed and the table is wide enough; a blank column
otherwise. -/
def colCellsOrIlocStr (df : Table) (o : Option String) (i : Nat) : List String :=
  match o with
  | some c => clean_series (df.getColD c)
  | none =>
    if df.ncols > i then clean_series (df.ilocCol i) else List.replicate df.nrows ""

/-- Raw cells of a resolved column; positional fallback as above, blanks
when the table is too narrow. -/
def colCellsOrIloc (df : Table) (o : Option String) (i : Nat) : List Cell :=
  match o with
  | some c => df.getColD c
  | none =>
    if df.ncols > i then df.ilocCol i else List.replicate df.nrows (Cell.str "")

/-- `build_smartstore_item_name`: product column (header-resolved, else
column index 16) joined with option column (header-resolved, else column
index 18), cleaned, whitespace-collapsed and stripped per row. -/
def build_smartstore_item_name (df : Table) : List String :=
  List.zipWith joinCollapse
    (colCellsOrIlocStr df (find_col df ["상품명", "주문상품명", "상품명(옵션포함)", "상품명/옵션"]) 16)
    (colCellsOrIlocStr df (find_col df ["옵션정보", "옵션", "옵션명", "옵션내용"]) 18)

/-- `build_coupang_item_name`: the exposed-product-name column, cleaned;
column index 12 as positional fallback. -/
def build_coupang_item_name (df : Table) : List String :=
  colCellsOrIlocStr df
    (find_col df ["노출상품명(옵션명)", "노출상품명", "노출 상품명(옵션명)", "노출 상품명"]) 12

/-- `build_thirtymall_item_name`: product column (else index 18) merged with
option column (else index 21) through the deduplicating merge. -/
def build_thirtymall_item_name (df : Table) : List String :=
  dedupe_merge_text
    (colCellsOrIloc df (find_col df ["상품명"]) 18)
    (colCellsOrIloc df (find_col df ["옵션명:옵션값", "옵션정보", "옵션", "옵션명"]) 21)

/-- `build_smartstore_phone`: first-choice, second-choice, then generic
contact column; blank column when all three are absent. -/
def build_smartstore_phone (df : Table) : List String :=
  match find_col df ["수취인연락처1", "수취인연락처(1)", "수취인 휴대전화", "수취인휴대전화"] with
  | some c => clean_series (df.getColD c)
  | none =>
    match find_col df ["수취인연락처2", "수취인연락처(2)"] with
    | some c => clean_series (df.getColD c)
    | none =>
      match find_col df ["수취인연락처", "수취인전화번호", "연락처", "휴대폰번호", "휴대전화"] with
      | some c => clean_series (df.getColD c)
      | none => List.replicate df.nrows ""

/-- `build_smartstore_zip`: the postal-code column, cleaned; blank column
when absent. -/
def build_smartstore_zip (df : Table) : List String :=
  match find_col df ["수취인우편번호", "우편번호", "배송지우편번호", "우편 번호"] with
  | none => List.replicate df.nrows ""
  | some z => clean_series (df.getColD z)

/-- `build_smartstore_address`: base plus detail address joined per row when
both resolve, base alone otherwise, else a generic full-address column,
else blanks. -/
def build_smartstore_address (df : Table) : List String :=
  match find_col df ["수취인기본주소", "기본주소", "도로명주소", "지번주소"] with
  | some base =>
    (match find_col df ["수취인상세주소", "상세주소", "상세 주소"] with
     | some detail =>
       List.zipWith joinCollapse
         (clean_series (df.getColD base)) (clean_series (df.getColD detail))
     | none => clean_series (df.getColD base))
  | none =>
    match find_col df ["수취인주소", "배송지주소", "배송지", "주소"] with
    | none => List.replicate df.nrows ""
    | some addr => clean_series (df.getColD addr)

/-- Wrap a list of strings as a column of cells. -/
def strCol (vals : List String) : List Cell :=
  vals.map Cell.str

/-- First-occurrence deduplication of the template columns, as a dict
comprehension keyed on them produces. -/
def dedupFirst (l : List String) : List String :=
  l.foldl (fun acc c => if c ∈ acc then acc else acc ++ [c]) []

/-- The generic copy loop of `make_invoice_rows`: for each target field, in
mapping order, whose mapping resolved and whose source column exists,
replace the output column by the source column's cells, unchanged. -/
def applyMapping (df : Table) : List (String × Option String) → Table → Table
  | [], out => out
  | (_, none) :: t, out => applyMapping df t out
  | (k, some oc) :: t, out =>
    applyMapping df t
      (if out.hasCol k && df.hasCol oc then out.setCol k (df.getColD oc) else out)

/-- The platform-specific item-name override of `make_invoice_rows`. -/
def itemOverride (df : Table) (platform : String) (out : Table) : Table :=
  if out.hasCol "품목명" then
    if platform = "smartstore" then out.setCol "품목명" (strCol (build_smartstore_item_name df))
    else if platform = "coupang" then out.setCol "품목명" (strCol (build_coupang_item_name df))
    else if platform = "thirtymall" then out.setCol "품목명" (strCol (build_thirtymall_item_name df))
    else out
  else out

/-- The smartstore phone override. -/
def smartPhoneOverride (df : Table) (out : Table) : Table :=
  if out.hasCol "받는분전화번호" then
    out.setCol "받는분전화번호" (strCol (build_smartstore_phone df))
  else out

/-- The smartstore postal-code override. -/
def smartZipOverride (df : Table) (out : Table) : Table :=
  if out.hasCol "받는분우편번호" then
    out.setCol "받는분우편번호" (strCol (build_smartstore_zip df))
  else out

/-- The smartstore address override. -/
def smartAddrOverride (df : Table) (out : Table) : Table :=
  if out.hasCol "받는분주소(전체,분할)" then
    out.setCol "받는분주소(전체,분할)" (strCol (build_smartstore_address df))
  else out

/-- The smartstore recipient-information overrides, applied in source
order. -/
def smartOverride (df : Table) (platform : String) (out : Table) : Table :=
  if platform = "smartstore" then
    smartAddrOverride df (smartZipOverride df (smartPhoneOverride df out))
  else out

/-- The blank skeleton `make_invoice_rows` starts from: one empty-string
column per (first occurrence of a) template column, `nrows` rows. -/
def blankOut (template_columns : List String) (n : Nat) : Table :=
  ⟨n, (dedupFirst template_columns).map (fun c => (c, List.replicate n (Cell.str "")))⟩

/-- `make_invoice_rows` from the source: blank skeleton, generic mapped
copy, item-name override, smartstore recipient overrides. -/
def make_invoice_rows (template_columns : List String) (order_df : Table)
    (mapping : List (String × Option String)) (platform : String) : Table :=
  smartOverride order_df platform
    (itemOverride order_df platform
      (applyMapping order_df mapping (blankOut template_columns order_df.nrows)))

/-- The built-in invoice template columns (`DEFAULT_TEMPLATE_COLUMNS`). -/
def DEFAULT_TEMPLATE_COLUMNS : List String :=
  ["고객주문번호", "집하예정일", "품목코드", "품목명", "기타1", "기타2", "내품수량",
   "박스수량", "받는분성명", "받는분전화번호", "받는분우편번호", "받는분주소(전체,분할)",
   "배송메세지1", "운송장번호"]

/-- Concatenation of the per-file outputs (`pd.concat` with a fresh index):
row count is the sum, and the shared column set is stacked columnwise. -/
def concatTables (ts : List Table) : Table :=
  ⟨(ts.map Table.nrows).sum,
   ((ts.head?.map Table.headers).getD []).map
     (fun h => (h, (ts.map (fun tb => tb.getColD h)).flatten))⟩

/-- Is this target field overwritten by a platform synthesizer after the
generic copy (item name for the three known platforms; phone, postal code
and address for smartstore)? -/
def overriddenField (platform field : String) : Bool :=
  (field == "품목명" &&
    (platform == "smartstore" || platform == "coupang" || platform == "thirtymall")) ||
  (platform == "smartstore" &&
    (field == "받는분전화번호" || field == "받는분우편번호" || field == "받는분주소(전체,분할)"))

theorem toNat_ofNat_of_valid (n : Nat) (h : n.isValidChar) :
    (Char.ofNat n).toNat = n := by
  unfold Char.ofNat
  rw [dif_pos h]
  rfl

theorem lowerChar_idem (c : Char) : lowerChar (lowerChar c) = lowerChar c := by
  unfold lowerChar
  by_cases h : 65 ≤ c.toNat ∧ c.toNat ≤ 90
  · have hv : (c.toNat + 32).isValidChar := Or.inl (by omega)
    rw [if_pos h, toNat_ofNat_of_valid _ hv, if_neg (by omega)]
  · rw [if_neg h, if_neg h]

theorem map_eq_self_of_mem {α : Type} {f : α → α} {l : List α}
    (h : ∀ a ∈ l, f a = a) : l.map f = l := by
  induction l with
  | nil => rfl
  | cons a t ih =>
    simp only [List.map_cons]
    rw [h a (by simp), ih (fun b hb => h b (by simp [hb]))]

theorem filter_self_idem {α : Type} (p : α → Bool) (l : List α) :
    (l.filter p).filter p = l.filter p := by
  induction l with
  | nil => rfl
  | cons a t ih => by_cases hp : p a <;> simp [List.filter_cons, hp, ih]

/-- Claim C7: the header normaliser is idempotent — `norm (norm s) = norm s`
for every input string `s`. -/
theorem norm_idem (s : String) : norm (norm s) = norm s := by
  have h1 : ((s.data.map lowerChar).filter keepChar).map lowerChar
      = (s.data.map lowerChar).filter keepChar := by
    apply map_eq_self_of_mem
    intro a ha
    have ha' := (List.mem_filter.mp ha).1
    rcases List.mem_map.mp ha' with ⟨b, _, rfl⟩
    exact lowerChar_idem b
  show (⟨(((s.data.map lowerChar).filter keepChar).map lowerChar).filter keepChar⟩ : String)
      = ⟨(s.data.map lowerChar).filter keepChar⟩
  rw [h1, filter_self_idem]

theorem dictInsert_key_present (acc : List (String × String)) (k v : String) :
    ∃ p ∈ dictInsert acc k v, p.1 = k := by
  unfold dictInsert
  split
  · rename_i hany
    rcases List.any_eq_true.mp hany with ⟨q, hq, hqk⟩
    refine ⟨(k, v), List.mem_map.mpr ⟨q, hq, ?_⟩, rfl⟩
    rw [if_pos (by exact beq_iff_eq.mp hqk)]
  · exact ⟨(k, v), by simp, rfl⟩

theorem dictInsert_key_mono (acc : List (String × String)) (k v k' : String)
    (h : ∃ p ∈ acc, p.1 = k') : ∃ p ∈ dictInsert acc k v, p.1 = k' := by
  unfold dictInsert
  split
  · rcases h with ⟨q, hq, hqk'⟩
    by_cases hqk : q.1 = k
    · exact ⟨(k, v), List.mem_map.mpr ⟨q, hq, by rw [if_pos hqk]⟩, by rw [← hqk', hqk]⟩
    · exact ⟨q, List.mem_map.mpr ⟨q, hq, by rw [if_neg hqk]⟩, hqk'⟩
  · rcases h with ⟨q, hq, hqk'⟩
    exact ⟨q, List.mem_append_left _ hq, hqk'⟩

theorem foldl_dictInsert_inv {L : List String} :
    ∀ (cols : List String) (acc : List (String × String)),
      (∀ p ∈ acc, p.2 ∈ L ∧ p.1 = norm p.2) →
      (∀ c ∈ cols, c ∈ L) →
      ∀ p ∈ cols.foldl (fun a c => dictInsert a (norm c) c) acc, p.2 ∈ L ∧ p.1 = norm p.2 := by
  intro cols
  induction cols with
  | nil => intro acc hacc _ p hp; exact hacc p hp
  | cons c t ih =>
    intro acc hacc hcols
    simp only [List.foldl_cons]
    apply ih
    · intro p hp
      unfold dictInsert at hp
      split at hp
      · rcases List.mem_map.mp hp with ⟨q, hq, hfq⟩
        by_cases hqc : q.1 = norm c
        · rw [if_pos hqc] at hfq
          rw [← hfq]
          exact ⟨hcols c (by simp), rfl⟩
        · rw [if_neg hqc] at hfq
          rw [← hfq]
          exact hacc q hq
      · rcases List.mem_append.mp hp with h | h
        · exact hacc p h
        · simp only [List.mem_singleton] at h
          rw [h]
          exact ⟨hcols c (by simp), rfl⟩
    · intro d hd
      exact hcols d (by simp [hd])

theorem normCols_inv {cols : List String} :
    ∀ p ∈ normCols cols, p.2 ∈ cols ∧ p.1 = norm p.2 :=
  foldl_dictInsert_inv cols [] (by simp) (fun _ hc => hc)

theorem foldl_dictInsert_key {k : String} :
    ∀ (cols : List String) (acc : List (String × String)),
      ((∃ p ∈ acc, p.1 = k) ∨ (∃ c ∈ cols, norm c = k)) →
      ∃ p ∈ cols.foldl (fun a c => dictInsert a (norm c) c) acc, p.1 = k := by
  intro cols
  induction cols with
  | nil =>
    intro acc h
    rcases h with h | ⟨c, hc, _⟩
    · exact h
    · cases hc
  | cons c t ih =>
    intro acc h
    simp only [List.foldl_cons]
    apply ih
    rcases h with hacc | ⟨d, hd, hk⟩
    · exact Or.inl (dictInsert_key_mono _ _ _ _ hacc)
    · rcases List.mem_cons.mp hd with rfl | hdt
      · exact Or.inl (hk ▸ dictInsert_key_present acc (norm d) d)
      · exact Or.inr ⟨d, hdt, hk⟩

theorem normCols_key_present {cols : List String} {c : String} (hc : c ∈ cols) :
    ∃ p ∈ normCols cols, p.1 = norm c :=
  foldl_dictInsert_key cols [] (Or.inr ⟨c, hc, rfl⟩)

theorem firstSome_eq_some {α β : Type} {l : List α} {f : α → Option β} {b : β}
    (h : firstSome l f = some b) : ∃ a ∈ l, f a = some b := by
  induction l with
  | nil => simp [firstSome] at h
  | cons a t ih =>
    unfold firstSome at h
    cases hfa : f a with
    | some c =>
      rw [hfa] at h
      exact ⟨a, by simp, by rw [hfa]; exact h⟩
    | none =>
      rw [hfa] at h
      rcases ih h with ⟨a', ha', hfa'⟩
      exact ⟨a', by simp [ha'], hfa'⟩

theorem firstSome_isSome {α β : Type} {l : List α} {f : α → Option β} {a : α} {b : β}
    (ha : a ∈ l) (hfa : f a = some b) : ∃ c, firstSome l f = some c := by
  induction l with
  | nil => cases ha
  | cons x t ih =>
    unfold firstSome
    cases hfx : f x with
    | some c => exact ⟨c, rfl⟩
    | none =>
      rcases List.mem_cons.mp ha with rfl | hat
      · rw [hfx] at hfa; cases hfa
      · exact ih hat

theorem firstSome_eq_none {α β : Type} {l : List α} {f : α → Option β}
    (h : ∀ a ∈ l, f a = none) : firstSome l f = none := by
  induction l with
  | nil => rfl
  | cons a t ih =>
    unfold firstSome
    rw [h a (by simp)]
    exact ih (fun x hx => h x (by simp [hx]))

theorem lookupA_eq_some {l : List (String × String)} {k v : String}
    (h : lookupA l k = some v) : ∃ p ∈ l, p.1 = k ∧ p.2 = v := by
  unfold lookupA at h
  cases hf : l.find? (fun p => p.1 == k) with
  | none => rw [hf] at h; cases h
  | some q =>
    rw [hf] at h
    have hq := List.find?_some hf
    have hmem := List.mem_of_find?_eq_some hf
    exact ⟨q, hmem, beq_iff_eq.mp hq, by simpa using h⟩

theorem lookupA_isSome {l : List (String × String)} {k : String}
    (h : ∃ p ∈ l, p.1 = k) : ∃ v, lookupA l k = some v := by
  rcases h with ⟨p, hp, hpk⟩
  unfold lookupA
  cases hf : l.find? (fun q => q.1 == k) with
  | none =>
    have := List.find?_eq_none.mp hf p hp
    simp [hpk] at this
  | some q => exact ⟨q.2, rfl⟩

theorem find_col_mem_headers {df : Table} {cands : List String} {h : String}
    (hf : find_col df cands = some h) : h ∈ df.headers := by
  unfold find_col at hf
  cases hfs : firstSome cands (fun cand => lookupA (normCols df.headers) (norm cand)) with
  | some c =>
    simp only [hfs, Option.some.injEq] at hf
    rcases firstSome_eq_some hfs with ⟨cand, _, hlook⟩
    rcases lookupA_eq_some hlook with ⟨p, hp, _, hpv⟩
    rw [← hf, ← hpv]
    exact (normCols_inv p hp).1
  | none =>
    simp only [hfs] at hf
    rcases firstSome_eq_some hf with ⟨p, hp, hfp⟩
    have hpv : p.2 = h := by
      by_cases hc : cands.any (fun cand =>
          norm cand ≠ "" && (isSub (norm cand) p.1 || isSub p.1 (norm cand)))
      · rw [if_pos hc] at hfp; exact Option.some.inj hfp
      · rw [if_neg hc] at hfp; cases hfp
    rw [← hpv]
    exact (normCols_inv p hp).1

/-- Claim C8: `find_col` only ever returns one of the table's own header
names (or nothing); it is a total function. -/
theorem find_col_returns_header {df : Table} {cands : List String} {h : String}
    (hf : find_col df cands = some h) : h ∈ df.headers :=
  find_col_mem_headers hf

/-- Closed witness for claim C8 at a concrete table and candidate list. -/
theorem find_col_returns_header_witness :
    "수취인명" ∈ (Table.headers ⟨1, [("상품주문번호", [Cell.str "A"]), ("수취인명", [Cell.str "B"])]⟩) :=
  @find_col_returns_header ⟨1, [("상품주문번호", [Cell.str "A"]), ("수취인명", [Cell.str "B"])]⟩
    ["수취인명", "수취인"] "수취인명" (by decide)

theorem find_col_exact_pass {df : Table} {cands : List String} {c h : String}
    (hc : c ∈ cands) (hh : h ∈ df.headers) (he : norm c = norm h) :
    ∃ r, find_col df cands = some r ∧ r ∈ df.headers ∧
      ∃ c' ∈ cands, norm c' = norm r := by
  have hkey : ∃ p ∈ normCols df.headers, p.1 = norm c := by
    rw [he]
    exact normCols_key_present hh
  rcases lookupA_isSome hkey with ⟨v, hv⟩
  rcases firstSome_isSome (f := fun cand => lookupA (normCols df.headers) (norm cand)) hc hv
    with ⟨r, hr⟩
  refine ⟨r, ?_, ?_, ?_⟩
  · unfold find_col
    simp only [hr]
  · rcases firstSome_eq_some hr with ⟨cand, _, hlook⟩
    rcases lookupA_eq_some hlook with ⟨p, hp, _, hpv⟩
    rw [← hpv]
    exact (normCols_inv p hp).1
  · rcases firstSome_eq_some hr with ⟨cand, hcand, hlook⟩
    rcases lookupA_eq_some hlook with ⟨p, hp, hpk, hpv⟩
    refine ⟨cand, hcand, ?_⟩
    rw [hpk.symm.trans ((normCols_inv p hp).2), hpv]

/-- Claim C3: if some candidate's normalised form exactly equals some
header's normalised form, `find_col` succeeds and its result comes from the
exact-match pass: the returned header is one of the table's headers and its
normalised form exactly equals some candidate's normalised form. -/
theorem find_col_exact_priority {df : Table} {cands : List String} {c h : String}
    (hc : c ∈ cands) (hh : h ∈ df.headers) (he : norm c = norm h) :
    ∃ r, find_col df cands = some r ∧ r ∈ df.headers ∧
      ∃ c' ∈ cands, norm c' = norm r :=
  find_col_exact_pass hc hh he

/-- Closed witness for claim C3: an exact match beats a substring match
that occurs earlier in the header order. -/
theorem find_col_exact_priority_witness :
    ∃ r, find_col ⟨1, [("주문번호입니다", [Cell.str "A"]), ("수취인명", [Cell.str "B"])]⟩
        ["주문번호", "수취인명"] = some r ∧
      r ∈ (Table.headers ⟨1, [("주문번호입니다", [Cell.str "A"]), ("수취인명", [Cell.str "B"])]⟩) ∧
      ∃ c' ∈ ["주문번호", "수취인명"], norm c' = norm r :=
  find_col_exact_priority (c := "수취인명") (h := "수취인명")
    (by decide) (by decide) (by decide)

/-- Claim C9: a candidate normalising to the empty string is useless to the
substring pass but matches an empty-normalised header in the exact pass:
with only empty-normalised candidates, `find_col` succeeds (returning an
empty-normalised header) exactly when the table has an empty-normalised
header, and returns nothing when it has none. -/
theorem find_col_empty_norm (df : Table) (cands : List String) :
    (cands ≠ [] → (∀ c ∈ cands, norm c = "") → (∃ h ∈ df.headers, norm h = "") →
      ∃ r, find_col df cands = some r ∧ r ∈ df.headers ∧ norm r = "") ∧
    ((∀ c ∈ cands, norm c = "") → (∀ h ∈ df.headers, norm h ≠ "") →
      find_col df cands = none) := by
  constructor
  · intro hne hall hex
    rcases hex with ⟨h, hh, hhn⟩
    cases cands with
    | nil => exact absurd rfl hne
    | cons c t =>
      have hc : c ∈ c :: t := by simp
      rcases find_col_exact_pass hc hh (by rw [hall c hc, hhn]) with
        ⟨r, hr, hrmem, c', hc', hc'n⟩
      exact ⟨r, hr, hrmem, by rw [← hc'n, hall c' hc']⟩
  · intro hcands hheads
    unfold find_col
    have hexact : firstSome cands (fun cand => lookupA (normCols df.headers) (norm cand)) = none := by
      apply firstSome_eq_none
      intro cand hcand
      unfold lookupA
      have hnone : (normCols df.headers).find? (fun p => p.1 == norm cand) = none := by
        apply List.find?_eq_none.mpr
        intro p hp
        have hinv := normCols_inv p hp
        have hne : norm p.2 ≠ "" := hheads p.2 hinv.1
        rw [hcands cand hcand, hinv.2]
        simp only [beq_iff_eq]
        exact hne
      rw [hnone]
      rfl
    simp only [hexact]
    apply firstSome_eq_none
    intro p _
    have hany : (cands.any (fun cand =>
        norm cand ≠ "" && (isSub (norm cand) p.1 || isSub p.1 (norm cand)))) = false := by
      apply List.any_eq_false.mpr
      intro cand hcand
      simp [hcands cand hcand]
    rw [hany]
    rfl

/-- Claim C4: the per-row deduplicating merge satisfies `merge x x = x` and
`merge x "" = x` for whitespace-trimmed `x`, and merges `"a b"` with
`"b c"` to `"a b c"` (token union in first-seen order). -/
theorem merge_one_properties :
    (∀ x : String, trimS x = x → merge_one x x = x ∧ merge_one x "" = x) ∧
    merge_one "a b" "b c" = "a b c" := by
  constructor
  · intro x hx
    constructor
    · unfold merge_one
      rw [hx]
      by_cases h0 : x = ""
      · simp [h0]
      · rw [if_neg (by simp [h0]), if_neg h0, if_neg h0, if_pos rfl]
    · unfold merge_one
      rw [hx]
      have ht : trimS "" = "" := rfl
      rw [ht]
      by_cases h0 : x = ""
      · simp [h0]
      · rw [if_neg (by simp [h0]), if_neg h0, if_pos rfl]
  · decide

/-- Closed witness for claim C4 at a concrete trimmed string. -/
theorem merge_one_properties_witness :
    merge_one "ab" "ab" = "ab" ∧ merge_one "ab" "" = "ab" :=
  ⟨(merge_one_properties.1 "ab" (by decide)).1, (merge_one_properties.1 "ab" (by decide)).2⟩

theorem detect_platform_eq_pick3 (df : Table) :
    detect_platform df = pick3 (coupangScore df) (smartScore df) (thirtyScore df) :=
  rfl

theorem score3_coupang (c s t : Nat) : score3 c s t "coupang" = c := rfl

theorem score3_smart (c s t : Nat) : score3 c s t "smartstore" = s := rfl

theorem score3_thirty (c s t : Nat) : score3 c s t "thirtymall" = t := rfl

theorem mem_PLATFORMS {p : String} (hp : p ∈ PLATFORMS) :
    p = "coupang" ∨ p = "smartstore" ∨ p = "thirtymall" := by
  simpa [PLATFORMS] using hp

theorem pick3_spec (c s t : Nat) :
    (pick3 c s t = "unknown" ↔ c = 0 ∧ s = 0 ∧ t = 0) ∧
    (pick3 c s t ≠ "unknown" →
      pick3 c s t ∈ PLATFORMS ∧
      (∀ p ∈ PLATFORMS, score3 c s t p ≤ score3 c s t (pick3 c s t)) ∧
      (∀ p ∈ PLATFORMS, score3 c s t p = score3 c s t (pick3 c s t) →
        declIdx (pick3 c s t) ≤ declIdx p)) := by
  unfold pick3
  by_cases h0 : c = 0 ∧ s = 0 ∧ t = 0
  · rw [if_pos h0]
    refine ⟨by simp [h0], fun hne => absurd rfl hne⟩
  · rw [if_neg h0]
    by_cases h1 : c ≥ s ∧ c ≥ t
    · rw [if_pos h1]
      refine ⟨⟨fun hcon => absurd hcon (by decide), fun hz => absurd hz h0⟩,
        fun _ => ⟨by decide, ?_, ?_⟩⟩
      · intro p hp
        rcases mem_PLATFORMS hp with rfl | rfl | rfl
        · rw [score3_coupang]
        · rw [score3_smart, score3_coupang]; omega
        · rw [score3_thirty, score3_coupang]; omega
      · intro p hp _
        rcases mem_PLATFORMS hp with rfl | rfl | rfl <;> simp [declIdx]
    · rw [if_neg h1]
      have h1' : c < s ∨ c < t := by
        by_contra hcon
        push_neg at hcon
        exact h1 ⟨hcon.1, hcon.2⟩
      by_cases h2 : s ≥ t
      · rw [if_pos h2]
        refine ⟨⟨fun hcon => absurd hcon (by decide), fun hz => absurd hz h0⟩,
          fun _ => ⟨by decide, ?_, ?_⟩⟩
        · intro p hp
          rcases mem_PLATFORMS hp with rfl | rfl | rfl
          · rw [score3_coupang, score3_smart]; rcases h1' with h | h <;> omega
          · rw [score3_smart]
          · rw [score3_thirty, score3_smart]; omega
        · intro p hp heq
          rcases mem_PLATFORMS hp with rfl | rfl | rfl
          · rw [score3_coupang, score3_smart] at heq
            exfalso; rcases h1' with h | h <;> omega
          · simp [declIdx]
          · simp [declIdx]
      · rw [if_neg h2]
        have h2' : t > s := by omega
        refine ⟨⟨fun hcon => absurd hcon (by decide), fun hz => absurd hz h0⟩,
          fun _ => ⟨by decide, ?_, ?_⟩⟩
        · intro p hp
          rcases mem_PLATFORMS hp with rfl | rfl | rfl
          · rw [score3_coupang, score3_thirty]; rcases h1' with h | h <;> omega
          · rw [score3_smart, score3_thirty]; omega
          · rw [score3_thirty]
        · intro p hp heq
          rcases mem_PLATFORMS hp with rfl | rfl | rfl
          · rw [score3_coupang, score3_thirty] at heq
            exfalso; rcases h1' with h | h <;> omega
          · rw [score3_smart, score3_thirty] at heq
            exfalso; omega
          · simp [declIdx]

/-- Claim C2: `detect_platform` answers unknown exactly when all three
final scores (value-hint bonus included) are zero; otherwise it returns a
platform of maximal score, and among maximal platforms the one declared
first. -/
theorem detect_platform_decision (df : Table) :
    (detect_platform df = "unknown" ↔ ∀ p ∈ PLATFORMS, platformScore df p = 0) ∧
    (detect_platform df ≠ "unknown" →
      detect_platform df ∈ PLATFORMS ∧
      (∀ p ∈ PLATFORMS, platformScore df p ≤ platformScore df (detect_platform df)) ∧
      (∀ p ∈ PLATFORMS, platformScore df p = platformScore df (detect_platform df) →
        declIdx (detect_platform df) ≤ declIdx p)) := by
  have hs := pick3_spec (coupangScore df) (smartScore df) (thirtyScore df)
  rw [detect_platform_eq_pick3]
  unfold platformScore
  constructor
  · rw [hs.1]
    constructor
    · rintro ⟨hc, hsm, ht⟩ p hp
      rcases mem_PLATFORMS hp with rfl | rfl | rfl
      · rw [score3_coupang]; exact hc
      · rw [score3_smart]; exact hsm
      · rw [score3_thirty]; exact ht
    · intro hall
      refine ⟨?_, ?_, ?_⟩
      · rw [← score3_coupang (coupangScore df) (smartScore df) (thirtyScore df)]
        exact hall "coupang" (by decide)
      · rw [← score3_smart (coupangScore df) (smartScore df) (thirtyScore df)]
        exact hall "smartstore" (by decide)
      · rw [← score3_thirty (coupangScore df) (smartScore df) (thirtyScore df)]
        exact hall "thirtymall" (by decide)
  · exact hs.2

theorem hasCol_iff_mem_headers (df : Table) (c : String) :
    df.hasCol c = true ↔ c ∈ df.headers := by
  unfold Table.hasCol Table.headers
  rw [List.any_eq_true]
  constructor
  · rintro ⟨p, hp, hpc⟩
    exact List.mem_map.mpr ⟨p, hp, beq_iff_eq.mp hpc⟩
  · intro h
    rcases List.mem_map.mp h with ⟨p, hp, hpc⟩
    exact ⟨p, hp, beq_iff_eq.mpr hpc⟩

theorem find_col_hasCol {df : Table} {cands : List String} {c : String}
    (hf : find_col df cands = some c) : df.hasCol c = true :=
  (hasCol_iff_mem_headers df c).mpr (find_col_mem_headers hf)

theorem setCol_headers (df : Table) (n : String) (vals : List Cell) :
    (df.setCol n vals).headers = df.headers := by
  unfold Table.setCol Table.headers
  simp only [List.map_map]
  have h : (Prod.fst ∘ fun p : String × List Cell => if p.1 = n then (p.1, vals) else p)
      = Prod.fst := by
    funext p
    by_cases hp : p.1 = n <;> simp [hp]
  rw [h]

theorem setCol_nrows (df : Table) (n : String) (vals : List Cell) :
    (df.setCol n vals).nrows = df.nrows :=
  rfl

theorem setCol_hasCol (df : Table) (n : String) (vals : List Cell) (m : String) :
    (df.setCol n vals).hasCol m = df.hasCol m := by
  unfold Table.setCol Table.hasCol
  simp only [List.any_map]
  congr 1
  funext p
  by_cases hp : p.1 = n <;> simp [hp]

theorem setCol_wf {df : Table} {n : String} {vals : List Cell}
    (h : df.wf) (hv : vals.length = df.nrows) : (df.setCol n vals).wf := by
  intro p hp
  unfold Table.setCol at hp
  rcases List.mem_map.mp hp with ⟨q, hq, hfq⟩
  by_cases hqn : q.1 = n
  · rw [if_pos hqn] at hfq
    rw [← hfq]
    exact hv
  · rw [if_neg hqn] at hfq
    rw [← hfq]
    exact h q hq

theorem setCol_getColD_list (n : String) (vals : List Cell) :
    ∀ l : List (String × List Cell), l.any (fun p => p.1 == n) = true →
      ((((l.map (fun p => if p.1 = n then (p.1, vals) else p)).find?
        (fun p => p.1 == n)).map Prod.snd).getD []) = vals := by
  intro l
  induction l with
  | nil => intro h; cases h
  | cons q t ih =>
    intro h
    by_cases hq : q.1 = n
    · simp only [List.map_cons, if_pos hq]
      rw [List.find?_cons_of_pos _ (by simp [hq])]
      rfl
    · simp only [List.map_cons, if_neg hq]
      rw [List.find?_cons_of_neg _ (by simp [hq])]
      apply ih
      simp only [List.any_cons, Bool.or_eq_true] at h
      rcases h with h | h
      · exact absurd (beq_iff_eq.mp h) hq
      · exact h

theorem setCol_getColD_self {df : Table} {n : String} {vals : List Cell}
    (h : df.hasCol n = true) : (df.setCol n vals).getColD n = vals := by
  unfold Table.setCol Table.getColD
  exact setCol_getColD_list n vals df.cols h

theorem setCol_getColD_other (df : Table) (n : String) (vals : List Cell)
    {m : String} (hmn : m ≠ n) : (df.setCol n vals).getColD m = df.getColD m := by
  unfold Table.setCol Table.getColD
  congr 1
  have hcomm : ∀ l : List (String × List Cell),
      (l.map (fun p => if p.1 = n then (p.1, vals) else p)).find? (fun p => p.1 == m)
        = (l.find? (fun p => p.1 == m)).map (fun p => if p.1 = n then (p.1, vals) else p) := by
    intro l
    induction l with
    | nil => rfl
    | cons q t ih =>
      by_cases hq : q.1 = m
      · have hqn : q.1 ≠ n := by rw [hq]; exact hmn
        simp only [List.map_cons, if_neg hqn]
        rw [List.find?_cons_of_pos _ (by simp [hq]), List.find?_cons_of_pos _ (by simp [hq])]
        simp only [Option.map_some']
        rw [if_neg hqn]
      · simp only [List.map_cons]
        by_cases hqn : q.1 = n
        · rw [if_pos hqn]
          rw [List.find?_cons_of_neg _ (by simp [hq]), List.find?_cons_of_neg _ (by simp [hq])]
          exact ih
        · rw [if_neg hqn]
          rw [List.find?_cons_of_neg _ (by simp [hq]), List.find?_cons_of_neg _ (by simp [hq])]
          exact ih
  rw [hcomm]
  cases hf : df.cols.find? (fun p => p.1 == m) with
  | none => rfl
  | some q =>
    have hq : q.1 = m := by
      have hq' := List.find?_some hf
      exact beq_iff_eq.mp hq'
    simp only [Option.map_some']
    have hqn : ¬ q.1 = n := by rw [hq]; exact hmn
    rw [if_neg hqn]

theorem getColD_length {df : Table} {c : String} (hwf : df.wf)
    (h : df.hasCol c = true) : (df.getColD c).length = df.nrows := by
  unfold Table.getColD
  unfold Table.hasCol at h
  cases hf : df.cols.find? (fun p => p.1 == c) with
  | none =>
    rcases List.any_eq_true.mp h with ⟨q, hq, hqc⟩
    have := List.find?_eq_none.mp hf q hq
    simp [hqc] at this
  | some q =>
    exact hwf q (List.mem_of_find?_eq_some hf)

theorem ilocCol_length {df : Table} {i : Nat} (hwf : df.wf)
    (h : i < df.ncols) : (df.ilocCol i).length = df.nrows := by
  unfold Table.ilocCol
  cases hg : df.cols.get? i with
  | none =>
    rw [List.get?_eq_none] at hg
    exact absurd h (by unfold Table.ncols; omega)
  | some p =>
    exact hwf p (List.get?_mem hg)

theorem clean_series_length (col : List Cell) :
    (clean_series col).length = col.length :=
  List.length_map col clean_cell

theorem strCol_length (vals : List String) : (strCol vals).length = vals.length :=
  List.length_map vals Cell.str

theorem colCellsOrIlocStr_length {df : Table} (hwf : df.wf) (cands : List String) (i : Nat) :
    (colCellsOrIlocStr df (find_col df cands) i).length = df.nrows := by
  unfold colCellsOrIlocStr
  split
  · rename_i c heq
    rw [clean_series_length]
    exact getColD_length hwf (find_col_hasCol heq)
  · by_cases hi : df.ncols > i
    · rw [if_pos hi, clean_series_length]
      exact ilocCol_length hwf hi
    · rw [if_neg hi]
      exact List.length_replicate _ _

theorem colCellsOrIloc_length {df : Table} (hwf : df.wf) (cands : List String) (i : Nat) :
    (colCellsOrIloc df (find_col df cands) i).length = df.nrows := by
  unfold colCellsOrIloc
  split
  · rename_i c heq
    exact getColD_length hwf (find_col_hasCol heq)
  · by_cases hi : df.ncols > i
    · rw [if_pos hi]
      exact ilocCol_length hwf hi
    · rw [if_neg hi]
      exact List.length_replicate _ _

theorem dedupe_merge_text_length (a b : List Cell) :
    (dedupe_merge_text a b).length = min a.length b.length := by
  unfold dedupe_merge_text
  rw [List.length_zipWith, clean_series_length, clean_series_length]

theorem build_smartstore_item_name_length {df : Table} (hwf : df.wf) :
    (build_smartstore_item_name df).length = df.nrows := by
  unfold build_smartstore_item_name
  rw [List.length_zipWith, colCellsOrIlocStr_length hwf, colCellsOrIlocStr_length hwf,
    Nat.min_self]

theorem build_coupang_item_name_length {df : Table} (hwf : df.wf) :
    (build_coupang_item_name df).length = df.nrows := by
  unfold build_coupang_item_name
  rw [colCellsOrIlocStr_length hwf]

theorem build_thirtymall_item_name_length {df : Table} (hwf : df.wf) :
    (build_thirtymall_item_name df).length = df.nrows := by
  unfold build_thirtymall_item_name
  rw [dedupe_merge_text_length, colCellsOrIloc_length hwf, colCellsOrIloc_length hwf,
    Nat.min_self]

theorem build_smartstore_phone_length {df : Table} (hwf : df.wf) :
    (build_smartstore_phone df).length = df.nrows := by
  unfold build_smartstore_phone
  split
  · rename_i c heq
    rw [clean_series_length]
    exact getColD_length hwf (find_col_hasCol heq)
  · split
    · rename_i c heq
      rw [clean_series_length]
      exact getColD_length hwf (find_col_hasCol heq)
    · split
      · rename_i c heq
        rw [clean_series_length]
        exact getColD_length hwf (find_col_hasCol heq)
      · exact List.length_replicate _ _

theorem build_smartstore_zip_length {df : Table} (hwf : df.wf) :
    (build_smartstore_zip df).length = df.nrows := by
  unfold build_smartstore_zip
  split
  · exact List.length_replicate _ _
  · rename_i z heq
    rw [clean_series_length]
    exact getColD_length hwf (find_col_hasCol heq)

theorem build_smartstore_address_length {df : Table} (hwf : df.wf) :
    (build_smartstore_address df).length = df.nrows := by
  unfold build_smartstore_address
  split
  · rename_i base heqb
    split
    · rename_i detail heqd
      rw [List.length_zipWith, clean_series_length, clean_series_length,
        getColD_length hwf (find_col_hasCol heqb), getColD_length hwf (find_col_hasCol heqd),
        Nat.min_self]
    · rw [clean_series_length]
      exact getColD_length hwf (find_col_hasCol heqb)
  · split
    · exact List.length_replicate _ _
    · rename_i addr heqa
      rw [clean_series_length]
      exact getColD_length hwf (find_col_hasCol heqa)

theorem foldl_table_preserve {α : Type} {P : Table → Prop} {step : Table → α → Table}
    (hstep : ∀ acc a, P acc → P (step acc a)) :
    ∀ (l : List α) (acc : Table), P acc → P (l.foldl step acc) := by
  intro l
  induction l with
  | nil => intro acc h; exact h
  | cons a t ih => intro acc h; exact ih _ (hstep acc a h)

theorem applyMapping_headers (df : Table) :
    ∀ (m : List (String × Option String)) (out : Table),
      (applyMapping df m out).headers = out.headers := by
  intro m
  induction m with
  | nil => intro out; rfl
  | cons p t ih =>
    intro out
    obtain ⟨k, o⟩ := p
    cases o with
    | none => exact ih out
    | some oc =>
      simp only [applyMapping]
      rw [ih]
      split_ifs
      · exact setCol_headers out k _
      · rfl

theorem applyMapping_nrows (df : Table) :
    ∀ (m : List (String × Option String)) (out : Table),
      (applyMapping df m out).nrows = out.nrows := by
  intro m
  induction m with
  | nil => intro out; rfl
  | cons p t ih =>
    intro out
    obtain ⟨k, o⟩ := p
    cases o with
    | none => exact ih out
    | some oc =>
      simp only [applyMapping]
      rw [ih]
      split_ifs
      · exact setCol_nrows out k _
      · rfl

theorem applyMapping_wf {df : Table} (hdf : df.wf) :
    ∀ (m : List (String × Option String)) (out : Table),
      out.wf → out.nrows = df.nrows → (applyMapping df m out).wf := by
  intro m
  induction m with
  | nil => intro out hout _; exact hout
  | cons p t ih =>
    intro out hout hn
    obtain ⟨k, o⟩ := p
    cases o with
    | none => exact ih out hout hn
    | some oc =>
      simp only [applyMapping]
      split_ifs with hg
      · have hoc : df.hasCol oc = true := ((Bool.and_eq_true _ _).mp hg).2
        refine ih _ (setCol_wf hout ?_) (by rw [setCol_nrows]; exact hn)
        rw [getColD_length hdf hoc, hn]
      · exact ih out hout hn

theorem applyMapping_getColD_notkey (df : Table) :
    ∀ (m : List (String × Option String)) (acc : Table) {field : String},
      field ∉ m.map Prod.fst →
      (applyMapping df m acc).getColD field = acc.getColD field := by
  intro m
  induction m with
  | nil => intro acc field _; rfl
  | cons p t ih =>
    intro acc field hnot
    simp only [List.map_cons, List.mem_cons] at hnot
    push_neg at hnot
    obtain ⟨k, o⟩ := p
    cases o with
    | none => exact ih acc hnot.2
    | some oc =>
      simp only [applyMapping]
      rw [ih _ hnot.2]
      split_ifs
      · exact setCol_getColD_other acc k _ hnot.1
      · rfl

theorem applyMapping_getColD (df : Table) {field col : String}
    (hdf : df.hasCol col = true) :
    ∀ (m : List (String × Option String)) (out : Table),
      (m.map Prod.fst).Nodup → (field, some col) ∈ m → out.hasCol field = true →
      (applyMapping df m out).getColD field = df.getColD col := by
  intro m
  induction m with
  | nil => intro out _ hmem _; cases hmem
  | cons p t ih =>
    intro out hnodup hmem hout
    simp only [List.map_cons, List.nodup_cons] at hnodup
    obtain ⟨k, o⟩ := p
    rcases List.mem_cons.mp hmem with heq | hmemt
    · injection heq with hk ho
      subst hk
      subst ho
      simp only [applyMapping]
      rw [if_pos (by rw [hout, hdf]; rfl)]
      rw [applyMapping_getColD_notkey df t _ hnodup.1]
      exact setCol_getColD_self hout
    · have hkf : k ≠ field := by
        intro hcon
        apply hnodup.1
        rw [hcon]
        exact List.mem_map.mpr ⟨(field, some col), hmemt, rfl⟩
      cases o with
      | none => exact ih out hnodup.2 hmemt hout
      | some oc =>
        simp only [applyMapping]
        split_ifs
        · refine ih _ hnodup.2 hmemt ?_
          rw [setCol_hasCol]
          exact hout
        · exact ih out hnodup.2 hmemt hout

theorem blankOut_headers (t : List String) (n : Nat) :
    (blankOut t n).headers = dedupFirst t := by
  unfold blankOut Table.headers
  rw [List.map_map]
  have h : (Prod.fst ∘ fun c => (c, List.replicate n (Cell.str "")))
      = (id : String → String) := rfl
  rw [h, List.map_id]

theorem blankOut_nrows (t : List String) (n : Nat) : (blankOut t n).nrows = n :=
  rfl

theorem blankOut_wf (t : List String) (n : Nat) : (blankOut t n).wf := by
  intro p hp
  rcases List.mem_map.mp hp with ⟨c, _, hfc⟩
  rw [← hfc]
  exact List.length_replicate _ _

theorem itemOverride_headers (df : Table) (p : String) (out : Table) :
    (itemOverride df p out).headers = out.headers := by
  unfold itemOverride
  split_ifs <;> first | rfl | apply setCol_headers

theorem itemOverride_nrows (df : Table) (p : String) (out : Table) :
    (itemOverride df p out).nrows = out.nrows := by
  unfold itemOverride
  split_ifs <;> rfl

theorem itemOverride_wf {df : Table} (p : String) {out : Table}
    (hdf : df.wf) (hout : out.wf) (hn : out.nrows = df.nrows) :
    (itemOverride df p out).wf := by
  unfold itemOverride
  split_ifs
  · exact setCol_wf hout (by rw [strCol_length, build_smartstore_item_name_length hdf, hn])
  · exact setCol_wf hout (by rw [strCol_length, build_coupang_item_name_length hdf, hn])
  · exact setCol_wf hout (by rw [strCol_length, build_thirtymall_item_name_length hdf, hn])
  · exact hout
  · exact hout

theorem smartPhoneOverride_headers (df : Table) (out : Table) :
    (smartPhoneOverride df out).headers = out.headers := by
  unfold smartPhoneOverride
  split_ifs <;> first | rfl | apply setCol_headers

theorem smartZipOverride_headers (df : Table) (out : Table) :
    (smartZipOverride df out).headers = out.headers := by
  unfold smartZipOverride
  split_ifs <;> first | rfl | apply setCol_headers

theorem smartAddrOverride_headers (df : Table) (out : Table) :
    (smartAddrOverride df out).headers = out.headers := by
  unfold smartAddrOverride
  split_ifs <;> first | rfl | apply setCol_headers

theorem smartOverride_headers (df : Table) (p : String) (out : Table) :
    (smartOverride df p out).headers = out.headers := by
  unfold smartOverride
  split_ifs
  · rw [smartAddrOverride_headers, smartZipOverride_headers, smartPhoneOverride_headers]
  · rfl

theorem smartPhoneOverride_nrows (df : Table) (out : Table) :
    (smartPhoneOverride df out).nrows = out.nrows := by
  unfold smartPhoneOverride
  split_ifs <;> rfl

theorem smartZipOverride_nrows (df : Table) (out : Table) :
    (smartZipOverride df out).nrows = out.nrows := by
  unfold smartZipOverride
  split_ifs <;> rfl

theorem smartAddrOverride_nrows (df : Table) (out : Table) :
    (smartAddrOverride df out).nrows = out.nrows := by
  unfold smartAddrOverride
  split_ifs <;> rfl

theorem smartOverride_nrows (df : Table) (p : String) (out : Table) :
    (smartOverride df p out).nrows = out.nrows := by
  unfold smartOverride
  split_ifs
  · rw [smartAddrOverride_nrows, smartZipOverride_nrows, smartPhoneOverride_nrows]
  · rfl

theorem smartOverride_wf {df : Table} (p : String) {out : Table}
    (hdf : df.wf) (hout : out.wf) (hn : out.nrows = df.nrows) :
    (smartOverride df p out).wf := by
  unfold smartOverride
  split_ifs
  · have h1 : (smartPhoneOverride df out).wf := by
      unfold smartPhoneOverride
      split_ifs
      · exact setCol_wf hout (by rw [strCol_length, build_smartstore_phone_length hdf, hn])
      · exact hout
    have h1n : (smartPhoneOverride df out).nrows = df.nrows := by
      rw [smartPhoneOverride_nrows, hn]
    have h2 : (smartZipOverride df (smartPhoneOverride df out)).wf := by
      unfold smartZipOverride
      split_ifs
      · exact setCol_wf h1 (by rw [strCol_length, build_smartstore_zip_length hdf, h1n])
      · exact h1
    have h2n : (smartZipOverride df (smartPhoneOverride df out)).nrows = df.nrows := by
      rw [smartZipOverride_nrows, h1n]
    unfold smartAddrOverride
    split_ifs
    · exact setCol_wf h2 (by rw [strCol_length, build_smartstore_address_length hdf, h2n])
    · exact h2
  · exact hout

theorem make_invoice_rows_headers (t : List String) (df : Table)
    (m : List (String × Option String)) (p : String) :
    (make_invoice_rows t df m p).headers = dedupFirst t := by
  unfold make_invoice_rows
  rw [smartOverride_headers, itemOverride_headers, applyMapping_headers, blankOut_headers]

theorem make_invoice_rows_nrows (t : List String) (df : Table)
    (m : List (String × Option String)) (p : String) :
    (make_invoice_rows t df m p).nrows = df.nrows := by
  unfold make_invoice_rows
  rw [smartOverride_nrows, itemOverride_nrows, applyMapping_nrows, blankOut_nrows]

theorem make_invoice_rows_wf (t : List String) {df : Table}
    (m : List (String × Option String)) (p : String) (hdf : df.wf) :
    (make_invoice_rows t df m p).wf := by
  unfold make_invoice_rows
  have h1 : (applyMapping df m (blankOut t df.nrows)).wf :=
    applyMapping_wf hdf m (blankOut t df.nrows) (blankOut_wf t df.nrows)
      (blankOut_nrows t df.nrows)
  have h1n : (applyMapping df m (blankOut t df.nrows)).nrows = df.nrows := by
    rw [applyMapping_nrows, blankOut_nrows]
  have h2 : (itemOverride df p (applyMapping df m (blankOut t df.nrows))).wf :=
    itemOverride_wf p hdf h1 h1n
  have h2n : (itemOverride df p (applyMapping df m (blankOut t df.nrows))).nrows = df.nrows := by
    rw [itemOverride_nrows, h1n]
  exact smartOverride_wf p hdf h2 h2n

theorem map_congr_mem {α β : Type} {f g : α → β} :
    ∀ {l : List α}, (∀ a ∈ l, f a = g a) → l.map f = l.map g := by
  intro l
  induction l with
  | nil => intro _; rfl
  | cons a t ih =>
    intro h
    simp only [List.map_cons]
    rw [h a (by simp), ih (fun b hb => h b (by simp [hb]))]

theorem dedupFirst_aux_of_nodup :
    ∀ (l acc : List String), (∀ c ∈ l, c ∉ acc) → l.Nodup →
      l.foldl (fun acc c => if c ∈ acc then acc else acc ++ [c]) acc = acc ++ l := by
  intro l
  induction l with
  | nil => intro acc _ _; simp
  | cons c t ih =>
    intro acc hdisj hnodup
    simp only [List.foldl_cons]
    rw [if_neg (hdisj c (by simp))]
    rw [ih (acc ++ [c]) ?disj (List.nodup_cons.mp hnodup).2]
    · simp
    case disj =>
      intro d hd hcon
      rcases List.mem_append.mp hcon with hda | hdc
      · exact hdisj d (by simp [hd]) hda
      · rw [List.mem_singleton] at hdc
        exact (List.nodup_cons.mp hnodup).1 (hdc ▸ hd)

theorem dedupFirst_of_nodup {l : List String} (h : l.Nodup) : dedupFirst l = l := by
  unfold dedupFirst
  rw [dedupFirst_aux_of_nodup l [] (by simp) h]
  simp

theorem mem_dedupFirst_aux :
    ∀ (l acc : List String) (x : String),
      (x ∈ l.foldl (fun acc c => if c ∈ acc then acc else acc ++ [c]) acc) ↔
        x ∈ acc ∨ x ∈ l := by
  intro l
  induction l with
  | nil => intro acc x; simp
  | cons c t ih =>
    intro acc x
    simp only [List.foldl_cons]
    by_cases hc : c ∈ acc
    · rw [if_pos hc, ih]
      constructor
      · rintro (h | h)
        · exact Or.inl h
        · exact Or.inr (by simp [h])
      · rintro (h | h)
        · exact Or.inl h
        · rcases List.mem_cons.mp h with rfl | h
          · exact Or.inl hc
          · exact Or.inr h
    · rw [if_neg hc, ih]
      simp only [List.mem_append, List.mem_singleton, List.mem_cons]
      tauto

theorem mem_dedupFirst {l : List String} {x : String} : x ∈ dedupFirst l ↔ x ∈ l := by
  unfold dedupFirst
  rw [mem_dedupFirst_aux]
  simp

/-- Claim C5: for a duplicate-free template, the output of
`make_invoice_rows` carries exactly the template's columns, in template
order, for every source table, mapping and platform. -/
theorem make_invoice_rows_schema (t : List String) (df : Table)
    (m : List (String × Option String)) (p : String) (h : t.Nodup) :
    (make_invoice_rows t df m p).headers = t := by
  rw [make_invoice_rows_headers, dedupFirst_of_nodup h]

/-- Closed witness for claim C5 on the built-in template. -/
theorem make_invoice_rows_schema_witness :
    (make_invoice_rows DEFAULT_TEMPLATE_COLUMNS ⟨1, [("주문번호", [Cell.str "A"])]⟩
      [] "unknown").headers = DEFAULT_TEMPLATE_COLUMNS :=
  make_invoice_rows_schema DEFAULT_TEMPLATE_COLUMNS ⟨1, [("주문번호", [Cell.str "A"])]⟩
    [] "unknown" (by decide)

theorem concatTables_wf {ts : List Table} {H : List String}
    (hheaders : ∀ tb ∈ ts, tb.headers = H) (hwfs : ∀ tb ∈ ts, tb.wf) :
    (concatTables ts).wf := by
  intro p hp
  cases ts with
  | nil => cases hp
  | cons tb0 rest =>
    unfold concatTables at hp ⊢
    simp only [List.head?_cons, Option.map_some', Option.getD_some] at hp
    rcases List.mem_map.mp hp with ⟨h, hh, hph⟩
    rw [← hph]
    show (((tb0 :: rest).map (fun tb => tb.getColD h)).flatten).length
        = ((tb0 :: rest).map Table.nrows).sum
    rw [List.length_flatten, List.map_map]
    refine congrArg List.sum (map_congr_mem ?_)
    intro tb htb
    have hhead : tb.headers = H := hheaders tb htb
    have hhas : tb.hasCol h = true := by
      rw [hasCol_iff_mem_headers, hhead, ← hheaders tb0 (by simp)]
      exact hh
    exact getColD_length (hwfs tb htb) hhas

/-- Claim C6: each Output Row Set has exactly as many rows as its source
table (stored row count and every column), and the concatenated result has
row count equal to the sum of the input files' row counts. -/
theorem make_invoice_rows_row_counts (t : List String)
    (inputs : List (Table × List (String × Option String) × String))
    (hwf : ∀ i ∈ inputs, i.1.wf) :
    (∀ i ∈ inputs, (make_invoice_rows t i.1 i.2.1 i.2.2).nrows = i.1.nrows ∧
        (make_invoice_rows t i.1 i.2.1 i.2.2).wf) ∧
    (concatTables (inputs.map (fun i => make_invoice_rows t i.1 i.2.1 i.2.2))).nrows
        = (inputs.map (fun i => i.1.nrows)).sum ∧
    (concatTables (inputs.map (fun i => make_invoice_rows t i.1 i.2.1 i.2.2))).wf := by
  refine ⟨?_, ?_, ?_⟩
  · intro i hi
    exact ⟨make_invoice_rows_nrows t i.1 i.2.1 i.2.2,
      make_invoice_rows_wf t i.2.1 i.2.2 (hwf i hi)⟩
  · show ((inputs.map (fun i => make_invoice_rows t i.1 i.2.1 i.2.2)).map Table.nrows).sum
        = (inputs.map (fun i => i.1.nrows)).sum
    rw [List.map_map]
    exact congrArg List.sum
      (map_congr_mem (fun i _ => make_invoice_rows_nrows t i.1 i.2.1 i.2.2))
  · refine concatTables_wf (H := dedupFirst t) ?_ ?_
    · intro tb htb
      rcases List.mem_map.mp htb with ⟨i, _, hi⟩
      rw [← hi]
      exact make_invoice_rows_headers t i.1 i.2.1 i.2.2
    · intro tb htb
      rcases List.mem_map.mp htb with ⟨i, hmem, hi⟩
      rw [← hi]
      exact make_invoice_rows_wf t i.2.1 i.2.2 (hwf i hmem)

theorem itemOverride_getColD_of_not {df : Table} {p : String} (out : Table) {field : String}
    (h : overriddenField p field = false) :
    (itemOverride df p out).getColD field = out.getColD field := by
  unfold itemOverride
  split_ifs with h1 h2 h3 h4
  · apply setCol_getColD_other
    intro hcon
    subst hcon
    rw [h2] at h
    exact absurd h (by decide)
  · apply setCol_getColD_other
    intro hcon
    subst hcon
    rw [h3] at h
    exact absurd h (by decide)
  · apply setCol_getColD_other
    intro hcon
    subst hcon
    rw [h4] at h
    exact absurd h (by decide)
  · rfl
  · rfl

theorem smartPhoneOverride_getColD (df : Table) (out : Table) {field : String}
    (hne : field ≠ "받는분전화번호") :
    (smartPhoneOverride df out).getColD field = out.getColD field := by
  unfold smartPhoneOverride
  split_ifs
  · exact setCol_getColD_other out _ _ hne
  · rfl

theorem smartZipOverride_getColD (df : Table) (out : Table) {field : String}
    (hne : field ≠ "받는분우편번호") :
    (smartZipOverride df out).getColD field = out.getColD field := by
  unfold smartZipOverride
  split_ifs
  · exact setCol_getColD_other out _ _ hne
  · rfl

theorem smartAddrOverride_getColD (df : Table) (out : Table) {field : String}
    (hne : field ≠ "받는분주소(전체,분할)") :
    (smartAddrOverride df out).getColD field = out.getColD field := by
  unfold smartAddrOverride
  split_ifs
  · exact setCol_getColD_other out _ _ hne
  · rfl

theorem smartOverride_getColD_of_not {df : Table} {p : String} (out : Table) {field : String}
    (h : overriddenField p field = false) :
    (smartOverride df p out).getColD field = out.getColD field := by
  unfold smartOverride
  split_ifs with hp
  · have hph : field ≠ "받는분전화번호" := by
      intro hcon
      subst hcon
      rw [hp] at h
      exact absurd h (by decide)
    have hz : field ≠ "받는분우편번호" := by
      intro hcon
      subst hcon
      rw [hp] at h
      exact absurd h (by decide)
    have ha : field ≠ "받는분주소(전체,분할)" := by
      intro hcon
      subst hcon
      rw [hp] at h
      exact absurd h (by decide)
    rw [smartAddrOverride_getColD df _ ha, smartZipOverride_getColD df _ hz,
      smartPhoneOverride_getColD df _ hph]
  · rfl

/-- Claim C1 counterexample: a mapped source column holding a missing value
is copied into the Output Row Set as the absence marker itself, not as the
empty string, and with no text coercion. -/
theorem make_invoice_rows_copy_counterexample :
    (make_invoice_rows ["기타1"] ⟨1, [("결제액", [Cell.nan])]⟩
      [("기타1", some "결제액")] "coupang").getColD "기타1" = [Cell.nan] ∧
    Cell.nan ≠ Cell.str "" := by
  constructor
  · decide
  · decide

/-- Claim C1 (amended): for every target field whose mapping resolved to an
existing source column and which no platform synthesizer overwrites, the
output column is the source column copied verbatim, cell for cell — missing
values stay missing-value markers and no coercion to text happens during
the copy. -/
theorem make_invoice_rows_copy_verbatim (t : List String) (df : Table)
    (m : List (String × Option String)) (p field col : String)
    (hm : (m.map Prod.fst).Nodup) (hmem : (field, some col) ∈ m)
    (hf : field ∈ t) (hc : df.hasCol col = true)
    (hov : overriddenField p field = false) :
    (make_invoice_rows t df m p).getColD field = df.getColD col := by
  unfold make_invoice_rows
  rw [smartOverride_getColD_of_not _ hov, itemOverride_getColD_of_not _ hov]
  apply applyMapping_getColD df hc m _ hm hmem
  rw [hasCol_iff_mem_headers, blankOut_headers]
  exact mem_dedupFirst.mpr hf

/-- Closed witness for the amended claim C1. -/
theorem make_invoice_rows_copy_verbatim_witness :
    (make_invoice_rows ["기타1"] ⟨1, [("결제액", [Cell.str "1000"])]⟩
      [("기타1", some "결제액")] "coupang").getColD "기타1"
      = (Table.getColD ⟨1, [("결제액", [Cell.str "1000"])]⟩ "결제액") :=
  make_invoice_rows_copy_verbatim ["기타1"] ⟨1, [("결제액", [Cell.str "1000"])]⟩
    [("기타1", some "결제액")] "coupang" "기타1" "결제액"
    (by decide) (by decide) (by decide) (by decide) (by decide)

/-- Claim C10: `clean_series` blanks any cell whose entire text form is
`"nan"` or `"None"`, and every synthesized field routes its source cells
through it, so such literal text is blanked in the synthesized outputs. -/
theorem clean_blanks_nan_none :
    (∀ c : Cell, cellStr c = "nan" ∨ cellStr c = "None" → clean_cell c = "") ∧
    build_smartstore_phone ⟨1, [("수취인연락처1", [Cell.str "nan"])]⟩ = [""] ∧
    build_smartstore_item_name
      ⟨1, [("상품명", [Cell.str "None"]), ("옵션정보", [Cell.str "nan"])]⟩ = [""] ∧
    build_smartstore_zip ⟨1, [("우편번호", [Cell.str "nan"])]⟩ = [""] ∧
    build_smartstore_address ⟨1, [("수취인주소", [Cell.str "None"])]⟩ = [""] ∧
    build_thirtymall_item_name
      ⟨1, [("상품명", [Cell.str "nan"]), ("옵션명:옵션값", [Cell.str "제품A"])]⟩ = ["제품A"] := by
  refine ⟨?_, by decide, by decide, by decide, by decide, by decide⟩
  intro c h
  unfold clean_cell
  rcases h with h | h
  · rw [if_pos (Or.inl h)]
    rfl
  · rw [if_pos (Or.inr h)]
    rfl

/-- Closed witness for claim C10 at the missing-value cell. -/
theorem clean_blanks_nan_none_witness : clean_cell Cell.nan = "" :=
  clean_blanks_nan_none.1 Cell.nan (Or.inl rfl)

/-- Closed witness for claim C2: on a table whose single header is the
coupang order-number keyword, detection is not unknown and the winner's
score dominates the smartstore score. -/
theorem detect_platform_decision_witness :
    platformScore ⟨1, [("주문번호", [Cell.str "A"])]⟩ "smartstore"
      ≤ platformScore ⟨1, [("주문번호", [Cell.str "A"])]⟩
        (detect_platform ⟨1, [("주문번호", [Cell.str "A"])]⟩) :=
  ((detect_platform_decision ⟨1, [("주문번호", [Cell.str "A"])]⟩).2
    (by decide)).2.1 "smartstore" (by decide)

/-- Closed witness for claim C9: a whitespace-only candidate matches a
punctuation-only header through the exact pass. -/
theorem find_col_empty_norm_witness :
    ∃ r, find_col ⟨1, [("()", [Cell.str "A"])]⟩ [" "] = some r ∧
      r ∈ (Table.headers ⟨1, [("()", [Cell.str "A"])]⟩) ∧ norm r = "" :=
  (find_col_empty_norm ⟨1, [("()", [Cell.str "A"])]⟩ [" "]).1
    (by decide) (by decide) (by decide)

/-- Closed witness for claim C6 at a two-row coupang-style file. -/
theorem make_invoice_rows_row_counts_witness :
    (concatTables ([(⟨2, [("결제액", [Cell.nan, Cell.str "5"])]⟩,
        [("기타1", some "결제액")], "coupang")].map
      (fun i => make_invoice_rows ["기타1"] i.1 i.2.1 i.2.2))).nrows
      = ([((⟨2, [("결제액", [Cell.nan, Cell.str "5"])]⟩ : Table),
          [("기타1", some "결제액")], "coupang")].map (fun i => i.1.nrows)).sum :=
  (make_invoice_rows_row_counts ["기타1"]
    [(⟨2, [("결제액", [Cell.nan, Cell.str "5"])]⟩, [("기타1", some "결제액")], "coupang")]
    (by decide)).2.1

end App3
